import Mathlib

/-!
Shallow embedding of the nixify-zelzip core library (the `util`, `niiebla` and
`icebrk` crates) together with proofs about its serialization, stream and
key-derivation routines.

Machine integers are modelled as `Nat`; wrap-around is written explicitly as
`% 2 ^ 64` (or the relevant width) at the places where the Rust code can
overflow.  Rust panics (asserts, division by zero, out-of-bounds indexing)
are modelled with `Option`/dedicated outcome constructors.  Streams
(`std::io::Cursor` over a byte vector) are modelled as a list of bytes plus a
cursor position.
-/

namespace Zelzip

set_option maxRecDepth 100000

/-! ## util crate: `align_to_boundary` (util.rs)

`align_to_boundary(value, boundary)` in Rust:
`if value == 0 { return 0 } value + (boundary - (value % boundary)) % boundary`.
`value % 0` panics (division by zero) and the `u64` addition wraps in release
builds; the panic is modelled as `none` and the wrap as `% 2 ^ 64`. -/

def align_to_boundary (value boundary : Nat) : Option Nat :=
  if value = 0 then some 0
  else if boundary = 0 then none
  else some ((value + (boundary - value % boundary) % boundary) % 2 ^ 64)

/-- Wrap-free alignment value, used by the rest of the model at the call
sites where both arguments are small (boundaries 16 and 64, in-stream
offsets); it agrees with `align_to_boundary` below `2 ^ 64`. -/
def alignTo (value boundary : Nat) : Nat :=
  if value = 0 then 0 else value + (boundary - value % boundary) % boundary

/-! ## Byte encodings (byteorder crate: `write_u16/u32/u64::<BE>`, `u32::<LE>`) -/

def u16be (n : Nat) : List Nat :=
  [n / 2 ^ 8 % 256, n % 256]

def u32be (n : Nat) : List Nat :=
  [n / 2 ^ 24 % 256, n / 2 ^ 16 % 256, n / 2 ^ 8 % 256, n % 256]

def u32le (n : Nat) : List Nat :=
  [n % 256, n / 2 ^ 8 % 256, n / 2 ^ 16 % 256, n / 2 ^ 24 % 256]

def u64be (n : Nat) : List Nat :=
  [n / 2 ^ 56 % 256, n / 2 ^ 48 % 256, n / 2 ^ 40 % 256, n / 2 ^ 32 % 256,
   n / 2 ^ 24 % 256, n / 2 ^ 16 % 256, n / 2 ^ 8 % 256, n % 256]

/-- Big-endian readers over a byte list: `readBytesAt l pos n` models
`read_exact!` at absolute position `pos`; it fails (I/O error in Rust) when
fewer than `n` bytes remain. -/
def readBytesAt (l : List Nat) (pos n : Nat) : Option (List Nat) :=
  if pos + n ≤ l.length then some ((l.drop pos).take n) else none

def beValue (bytes : List Nat) : Nat :=
  bytes.foldl (fun acc b => acc * 256 + b % 256) 0

def readU16At (l : List Nat) (pos : Nat) : Option Nat :=
  (readBytesAt l pos 2).map beValue

def readU32At (l : List Nat) (pos : Nat) : Option Nat :=
  (readBytesAt l pos 4).map beValue

/-! ## Stream model

A `std::io::Cursor` over a growable byte vector: a byte list plus a cursor.
`write` models `write_all` (a no-op for an empty buffer; otherwise the cursor
gap, if the position is past the end, is zero-filled, the bytes overwrite or
extend the data, and the cursor advances).  `seekRel` models
`seek_relative` with a non-negative delta. -/

@[ext]
structure ByteStream where
  data : List Nat
  pos : Nat
deriving DecidableEq, Repr

/-- The bytes of `s` in front of the cursor, zero-extended up to the cursor
when the cursor is past the end (`Cursor` zero-fills the gap on a write). -/
def ByteStream.padToCursor (s : ByteStream) : List Nat :=
  s.data.take s.pos ++ List.replicate (s.pos - s.data.length) 0

def ByteStream.write (s : ByteStream) (bs : List Nat) : ByteStream :=
  if bs.isEmpty then s
  else
    { data := s.padToCursor ++ (bs ++ s.data.drop (s.pos + bs.length)),
      pos := s.pos + bs.length }

def ByteStream.seekRel (s : ByteStream) (n : Nat) : ByteStream :=
  { s with pos := s.pos + n }

/-- Writing a sequence of chunks one after the other (a sequence of
`write_all` source statements). -/
def ByteStream.writeChunks (s : ByteStream) (cs : List (List Nat)) : ByteStream :=
  cs.foldl ByteStream.write s

/-! ## niiebla: signed blob header (signed_blob_header.rs) -/

inductive SignedBlobHeaderSignature where
  | rsa4096Sha1 (data : List Nat) (hdata : data.length = 512)
  | rsa2048Sha1 (data : List Nat) (hdata : data.length = 256)
  | ecdsaSha1 (data : List Nat) (hdata : data.length = 60)
  | rsa4096Sha256 (data : List Nat) (hdata : data.length = 512)
  | rsa2048Sha256 (data : List Nat) (hdata : data.length = 256)
  | ecdsaSha256 (data : List Nat) (hdata : data.length = 60)
  | hmacSha1 (data : List Nat) (hdata : data.length = 20)
deriving DecidableEq

def SignedBlobHeaderSignature.tag : SignedBlobHeaderSignature → Nat
  | .rsa4096Sha1 _ _ => 0x010000
  | .rsa2048Sha1 _ _ => 0x010001
  | .ecdsaSha1 _ _ => 0x010002
  | .rsa4096Sha256 _ _ => 0x010003
  | .rsa2048Sha256 _ _ => 0x010004
  | .ecdsaSha256 _ _ => 0x010005
  | .hmacSha1 _ _ => 0x010006

def SignedBlobHeaderSignature.payload : SignedBlobHeaderSignature → List Nat
  | .rsa4096Sha1 d _ => d
  | .rsa2048Sha1 d _ => d
  | .ecdsaSha1 d _ => d
  | .rsa4096Sha256 d _ => d
  | .rsa2048Sha256 d _ => d
  | .ecdsaSha256 d _ => d
  | .hmacSha1 d _ => d

/-- Number of payload bytes of each signature kind (the `match` inside
`SignedBlobHeader::size`). -/
def SignedBlobHeaderSignature.payloadSize : SignedBlobHeaderSignature → Nat
  | .rsa4096Sha1 _ _ => 512
  | .rsa2048Sha1 _ _ => 256
  | .ecdsaSha1 _ _ => 60
  | .rsa4096Sha256 _ _ => 512
  | .rsa2048Sha256 _ _ => 256
  | .ecdsaSha256 _ _ => 60
  | .hmacSha1 _ _ => 20

/-- `SignedBlobHeaderSignature::dump`: 4-byte big-endian tag plus the raw
payload. -/
def SignedBlobHeaderSignature.dumpBytes (sig : SignedBlobHeaderSignature) :
    List Nat :=
  u32be sig.tag ++ sig.payload

structure SignedBlobHeader where
  signature : SignedBlobHeaderSignature
  issuer : List Nat
deriving DecidableEq

/-- `write_bytes_padded` asserts `buffer.len() <= padding`; the issuer is
padded to 64 bytes. -/
def SignedBlobHeader.issuerOk (h : SignedBlobHeader) : Bool :=
  h.issuer.length ≤ 64

/-- `SignedBlobHeader::dump`: signature, zero-fill to the next 64-byte
boundary (relative to the pinned start), then the issuer padded with zeroes
to 64 bytes.  The model is the flat byte list of that write sequence; the
`write_bytes_padded` assert (`issuer.len() <= 64`) is carried as a
hypothesis by the theorems that use it. -/
def SignedBlobHeader.dumpBytes (h : SignedBlobHeader) : List Nat :=
  h.signature.dumpBytes
    ++ List.replicate (alignTo h.signature.dumpBytes.length 64
        - h.signature.dumpBytes.length) 0
    ++ h.issuer ++ List.replicate (64 - h.issuer.length) 0

/-- `SignedBlobHeader::size`. -/
def SignedBlobHeader.size (h : SignedBlobHeader) : Nat :=
  alignTo (h.signature.payloadSize + 68) 64

/-! ## niiebla: title metadata (title_metadata.rs) -/

inductive TitleMetadataPlatformDataWiiRegion where
  | japan
  | usa
  | europe
  | regionFree
  | korea
deriving DecidableEq

def TitleMetadataPlatformDataWiiRegion.identifier :
    TitleMetadataPlatformDataWiiRegion → Nat
  | .japan => 0
  | .usa => 1
  | .europe => 2
  | .regionFree => 3
  | .korea => 4

inductive TitleMetadataPlatformData where
  | dsi
  | wii (is_wii_u_vwii_only_title : Bool)
      (region : TitleMetadataPlatformDataWiiRegion)
      (ratings : List Nat) (ipc_mask : List Nat)
  | console3ds (public_save_data_size private_save_data_size srl_flag : Nat)
  | wiiU
deriving DecidableEq

def TitleMetadataPlatformData.identifier : TitleMetadataPlatformData → Nat
  | .dsi => 0
  | .wii _ _ _ _ => 1
  | .console3ds _ _ _ => 64
  | .wiiU => 256

/-- The reserved byte written right after the CRL versions ("weird reserved
byte that only has meaning on the Wii"). -/
def TitleMetadataPlatformData.reservedByte : TitleMetadataPlatformData → Nat
  | .wii v _ _ _ => if v then 1 else 0
  | _ => 0

/-- The 62 platform-specific bytes written between the group id and the
access rights. -/
def TitleMetadataPlatformData.regionBytes : TitleMetadataPlatformData → List Nat
  | .dsi => List.replicate 62 0
  | .wiiU => List.replicate 62 0
  | .console3ds pub priv srl =>
      u32le pub ++ u32le priv ++ List.replicate 4 0 ++ [srl % 256]
        ++ List.replicate 49 0
  | .wii _ region ratings ipc_mask =>
      List.replicate 2 0 ++ u16be region.identifier ++ ratings
        ++ List.replicate 12 0 ++ ipc_mask ++ List.replicate 18 0

def TitleMetadataPlatformData.wf : TitleMetadataPlatformData → Bool
  | .wii _ _ ratings ipc_mask => ratings.length = 16 && ipc_mask.length = 12
  | _ => true

inductive TitleMetadataContentEntryKind where
  | normal
  | normalWiiUKind1
  | normalWiiUKind2
  | normalWiiUKind3
  | dlc
  | shared
deriving DecidableEq

def TitleMetadataContentEntryKind.identifier : TitleMetadataContentEntryKind → Nat
  | .normal => 0x0001
  | .normalWiiUKind1 => 0x2001
  | .normalWiiUKind2 => 0x2003
  | .normalWiiUKind3 => 0x6003
  | .dlc => 0x4001
  | .shared => 0x8001

inductive TitleMetadataContentEntryHashKind where
  | version0 (value : List Nat)
  | version1 (value : List Nat)
deriving DecidableEq

def TitleMetadataContentEntryHashKind.bytes :
    TitleMetadataContentEntryHashKind → List Nat
  | .version0 v => v
  | .version1 v => v

structure TitleMetadataContentEntry where
  id : Nat
  index : Nat
  kind : TitleMetadataContentEntryKind
  size : Nat
  hash : TitleMetadataContentEntryHashKind
deriving DecidableEq

/-- `TitleMetadataContentEntry::dump`. -/
def TitleMetadataContentEntry.dumpBytes (e : TitleMetadataContentEntry) :
    List Nat :=
  u32be e.id ++ u16be e.index ++ u16be e.kind.identifier ++ u64be e.size
    ++ e.hash.bytes

/-- The hash variant stored in an entry matches the title metadata version
(`TitleMetadataContentEntry::new` always builds it that way) and has the
right byte count. -/
def TitleMetadataContentEntry.wfVersion (version1 : Bool)
    (e : TitleMetadataContentEntry) : Bool :=
  match e.hash with
  | .version0 v => !version1 && v.length = 20
  | .version1 v => version1 && v.length = 32

structure TitleMetadataV1ContentEntriesGroup where
  first_content_index : Nat
  content_entries_in_the_group : Nat
  content_entries_group_hash_sha256 : List Nat
deriving DecidableEq

def TitleMetadataV1ContentEntriesGroup.dumpBytes
    (g : TitleMetadataV1ContentEntriesGroup) : List Nat :=
  u16be g.first_content_index ++ u16be g.content_entries_in_the_group
    ++ g.content_entries_group_hash_sha256

structure TitleMetadataV1 where
  content_entries_groups_hash_sha256 : List Nat
  content_entries_groups : List TitleMetadataV1ContentEntriesGroup
deriving DecidableEq

def TitleMetadataV1.wf (v : TitleMetadataV1) : Bool :=
  v.content_entries_groups_hash_sha256.length = 32
    && v.content_entries_groups.length = 64
    && v.content_entries_groups.all
        (fun g => g.content_entries_group_hash_sha256.length = 32)

def TitleMetadataV1.dumpBytes (v : TitleMetadataV1) : List Nat :=
  v.content_entries_groups_hash_sha256
    ++ (v.content_entries_groups.map TitleMetadataV1ContentEntriesGroup.dumpBytes).flatten

structure TitleMetadata where
  signed_blob_header : SignedBlobHeader
  certificate_authority_certificate_revocation_list_version : Nat
  signer_certificate_revocation_list_version : Nat
  system_runtime_title_id : Option Nat
  title_id : Nat
  group_id : Nat
  access_rights : Nat
  title_version : Nat
  boot_content_index : Nat
  platform_data : TitleMetadataPlatformData
  version_1_extension : Option TitleMetadataV1
  content_chunk_entries : List TitleMetadataContentEntry
deriving DecidableEq

/-- The bytes `TitleMetadata::dump` writes before the 2-byte
`seek_relative(2)` over the unused title minor version: the signed blob
header and the 98 fixed body bytes, in source order. -/
def TitleMetadata.dumpPre (m : TitleMetadata) : List Nat :=
  m.signed_blob_header.dumpBytes
    ++ [if m.version_1_extension.isSome then 1 else 0]
    ++ [m.certificate_authority_certificate_revocation_list_version % 256]
    ++ [m.signer_certificate_revocation_list_version % 256]
    ++ [m.platform_data.reservedByte]
    ++ (match m.system_runtime_title_id with
        | none => List.replicate 8 0
        | some tid => u64be tid)
    ++ u64be m.title_id
    ++ u32be m.platform_data.identifier
    ++ u16be m.group_id
    ++ m.platform_data.regionBytes
    ++ u32be m.access_rights
    ++ u16be m.title_version
    ++ u16be m.content_chunk_entries.length
    ++ u16be m.boot_content_index

/-- The write chunks `TitleMetadata::dump` performs after the 2-byte seek:
the optional V1 extension, then one chunk per content entry. -/
def TitleMetadata.dumpPostChunks (m : TitleMetadata) : List (List Nat) :=
  (match m.version_1_extension with
    | none => []
    | some v => [v.dumpBytes])
    ++ m.content_chunk_entries.map TitleMetadataContentEntry.dumpBytes

/-- `TitleMetadata::dump` on a cursor stream: write the prefix, seek over
the 2 unused bytes, then write the extension and entries. -/
def TitleMetadata.dump (m : TitleMetadata) (s : ByteStream) : ByteStream :=
  ((s.write m.dumpPre).seekRel 2).writeChunks m.dumpPostChunks

/-- `TitleMetadata::size`; `content_chunk_entries.len() as u32` is the
truncating cast. -/
def TitleMetadata.size (m : TitleMetadata) : Nat :=
  let num_of_entries := m.content_chunk_entries.length % 2 ^ 32
  100 + m.signed_blob_header.size + 16 * num_of_entries +
    (if m.version_1_extension.isSome then
      32 * num_of_entries + 32 + (4 + 32) * 64
    else
      20 * num_of_entries)

/-- Well-formedness of a `TitleMetadata` value as produced by
`TitleMetadata::new`: issuer fits its padding, platform byte arrays have
their Rust array sizes, the V1 extension arrays have their sizes and every
content entry stores the hash variant of the manifest version. -/
def TitleMetadata.wf (m : TitleMetadata) : Bool :=
  m.signed_blob_header.issuerOk
    && m.platform_data.wf
    && (match m.version_1_extension with
        | none => true
        | some v => v.wf)
    && m.content_chunk_entries.all
        (TitleMetadataContentEntry.wfVersion m.version_1_extension.isSome)

/-! ## niiebla: content selector (title_metadata/content_selector.rs)

The accessors can succeed, fail with `ContentNotFound`, or panic (an
out-of-bounds `entries[pos]` index or the `unreachable!()` arm).  The
`len() - 1` of `get_last` is the wrapping `usize` subtraction of a release
build. -/

inductive ContentSelectorMethod where
  | withPhysicalPosition (pos : Nat)
  | withIndex (index : Nat)
  | withId (id : Nat)
  | last
deriving DecidableEq

structure ContentSelector where
  method : ContentSelectorMethod
deriving DecidableEq

inductive ContentAccessOutcome (α : Type) where
  | ok (value : α)
  | contentNotFound
  | panicked
deriving DecidableEq

def ContentAccessOutcome.map {α β : Type} (f : α → β) :
    ContentAccessOutcome α → ContentAccessOutcome β
  | .ok v => .ok (f v)
  | .contentNotFound => .contentNotFound
  | .panicked => .panicked

/-- `ContentSelector::get_last`: physical position `len() - 1`, with the
`usize` wrap of release builds on an empty content list. -/
def ContentSelector.get_last (title_metadata : TitleMetadata) : ContentSelector :=
  ⟨.withPhysicalPosition
    ((title_metadata.content_chunk_entries.length + 2 ^ 64 - 1) % 2 ^ 64)⟩

/-- The `match` body of `ContentSelector::content_entry` (reached with a
non-`Last` method after the `Last` redirection; the `Last` arm is
`unreachable!()`). -/
def ContentSelector.content_entry_body (method : ContentSelectorMethod)
    (title_metadata : TitleMetadata) :
    ContentAccessOutcome TitleMetadataContentEntry :=
  match method with
  | .withPhysicalPosition pos =>
      match title_metadata.content_chunk_entries.get? pos with
      | some e => .ok e
      | none => .panicked
  | .withId i =>
      match title_metadata.content_chunk_entries.find? (fun e => e.id = i) with
      | some e => .ok e
      | none => .contentNotFound
  | .withIndex ix =>
      match title_metadata.content_chunk_entries.find? (fun e => e.index = ix) with
      | some e => .ok e
      | none => .contentNotFound
  | .last => .panicked

def ContentSelector.content_entry (s : ContentSelector)
    (title_metadata : TitleMetadata) :
    ContentAccessOutcome TitleMetadataContentEntry :=
  match s.method with
  | .last => ContentSelector.content_entry_body
      (ContentSelector.get_last title_metadata).method title_metadata
  | m => ContentSelector.content_entry_body m title_metadata

/-- The `match` body of `ContentSelector::physical_position`; note the
`WithPhysicalPosition` arm returns the stored position with no bounds
check. -/
def ContentSelector.physical_position_body (method : ContentSelectorMethod)
    (title_metadata : TitleMetadata) : ContentAccessOutcome Nat :=
  match method with
  | .withPhysicalPosition pos => .ok pos
  | .withId i =>
      match title_metadata.content_chunk_entries.findIdx? (fun e => e.id = i) with
      | some pos => .ok pos
      | none => .contentNotFound
  | .withIndex ix =>
      match title_metadata.content_chunk_entries.findIdx? (fun e => e.index = ix) with
      | some pos => .ok pos
      | none => .contentNotFound
  | .last => .panicked

def ContentSelector.physical_position (s : ContentSelector)
    (title_metadata : TitleMetadata) : ContentAccessOutcome Nat :=
  match s.method with
  | .last => ContentSelector.physical_position_body
      (ContentSelector.get_last title_metadata).method title_metadata
  | m => ContentSelector.physical_position_body m title_metadata

/-- `ContentSelector::id`: a `WithId` selector returns its stored id with no
lookup. -/
def ContentSelector.id (s : ContentSelector) (title_metadata : TitleMetadata) :
    ContentAccessOutcome Nat :=
  match s.method with
  | .withId i => .ok i
  | .last =>
      ((ContentSelector.get_last title_metadata).content_entry
        title_metadata).map (fun e => e.id)
  | m => ((ContentSelector.mk m).content_entry title_metadata).map (fun e => e.id)

/-- `ContentSelector::index`: a `WithIndex` selector returns its stored
index with no lookup. -/
def ContentSelector.index (s : ContentSelector) (title_metadata : TitleMetadata) :
    ContentAccessOutcome Nat :=
  match s.method with
  | .withIndex ix => .ok ix
  | .last =>
      ((ContentSelector.get_last title_metadata).content_entry
        title_metadata).map (fun e => e.index)
  | m => ((ContentSelector.mk m).content_entry title_metadata).map (fun e => e.index)

/-! ## niiebla: ticket limit entries (ticket.rs) -/

/-- The ticket error variants reachable from the limit-entry model. -/
inductive PreSwitchTicketError where
  | unknownLimitEntryType (kind : Nat)
deriving DecidableEq

inductive PreSwitchTicketLimitEntry where
  | noLimit (kind : Nat)
  | timeLimit (minutes : Nat)
  | launchLimit (number_of_launches : Nat)
deriving DecidableEq

/-- `PreSwitchTicketLimitEntry::new`: kinds 0 and 3 are `NoLimit` (the kind
is preserved, the associated value discarded), 1 is `TimeLimit`, 2 is
`LaunchLimit`; anything else is `UnknownLimitEntryType`. -/
def PreSwitchTicketLimitEntry.new (kind associated_value : Nat) :
    Except PreSwitchTicketError PreSwitchTicketLimitEntry :=
  if kind = 0 ∨ kind = 3 then .ok (.noLimit kind)
  else if kind = 1 then .ok (.timeLimit associated_value)
  else if kind = 2 then .ok (.launchLimit associated_value)
  else .error (.unknownLimitEntryType kind)

/-- `PreSwitchTicketLimitEntry::dump`: 4-byte big-endian kind tag then the
value; the `LaunchLimit` arm writes the literal tag 4 (ticket.rs line 503). -/
def PreSwitchTicketLimitEntry.dumpBytes : PreSwitchTicketLimitEntry → List Nat
  | .noLimit kind => u32be kind ++ List.replicate 4 0
  | .timeLimit minutes => u32be 1 ++ u32be minutes
  | .launchLimit number_of_launches => u32be 4 ++ u32be number_of_launches

/-- Parse back a dumped limit entry: the two big-endian `u32` reads of
`PreSwitchTicket::new` applied to the 8 dumped bytes. -/
def PreSwitchTicketLimitEntry.reparse (e : PreSwitchTicketLimitEntry) :
    Except PreSwitchTicketError PreSwitchTicketLimitEntry :=
  PreSwitchTicketLimitEntry.new (beValue (e.dumpBytes.take 4))
    (beValue (e.dumpBytes.drop 4))

/-! ## niiebla: installable WAD (wad/installable.rs) -/

inductive InstallableWadKind where
  | normal
  | boot2
deriving DecidableEq

inductive InstallableWadError where
  | ioError
  | unknownInstallableWadTypeError (bytes : List Nat)
  | notAWiiTitle
  | modifyContentMissingSetting (setting : String)
  | titleMetadataEntryNotFoundError
  | unknownFormatVersion (version : Nat)
deriving DecidableEq

/-- `InstallableWadKind::new`: magic `"Is"` is Normal, `"ib"` is Boot2. -/
def InstallableWadKind.new (bytes : List Nat) :
    Except InstallableWadError InstallableWadKind :=
  if bytes = [0x49, 0x73] then .ok .normal
  else if bytes = [0x69, 0x62] then .ok .boot2
  else .error (.unknownInstallableWadTypeError bytes)

structure InstallableWad where
  header_size : Nat
  kind : InstallableWadKind
  certificate_chain_size : Nat
  ticket_size : Nat
  title_metadata_size : Nat
  content_size : Nat
  footer_size : Nat
deriving DecidableEq

/-- `InstallableWad::new` over a byte list starting at the header: the
sequential header reads (u32 header size, 2 magic bytes, u16 format version
checked to be 0, u32 certificate chain size, 4 reserved bytes skipped, then
the four remaining u32 sizes). -/
def InstallableWad.new (l : List Nat) : Except InstallableWadError InstallableWad := do
  let header_size ← match readU32At l 0 with
    | some v => Except.ok v
    | none => Except.error InstallableWadError.ioError
  let magic ← match readBytesAt l 4 2 with
    | some v => Except.ok v
    | none => Except.error InstallableWadError.ioError
  let kind ← InstallableWadKind.new magic
  let format_version ← match readU16At l 6 with
    | some v => Except.ok v
    | none => Except.error InstallableWadError.ioError
  if format_version ≠ 0 then
    throw (InstallableWadError.unknownFormatVersion format_version)
  let certificate_chain_size ← match readU32At l 8 with
    | some v => Except.ok v
    | none => Except.error InstallableWadError.ioError
  let ticket_size ← match readU32At l 16 with
    | some v => Except.ok v
    | none => Except.error InstallableWadError.ioError
  let title_metadata_size ← match readU32At l 20 with
    | some v => Except.ok v
    | none => Except.error InstallableWadError.ioError
  let content_size ← match readU32At l 24 with
    | some v => Except.ok v
    | none => Except.error InstallableWadError.ioError
  let footer_size ← match readU32At l 28 with
    | some v => Except.ok v
    | none => Except.error InstallableWadError.ioError
  return { header_size, kind, certificate_chain_size, ticket_size,
           title_metadata_size, content_size, footer_size }

/-- `InstallableWad::dump` from a pin at the stream start: the magic is the
literal string `"Is"` whatever `self.kind` is, the written header size is
the literal 32, and `align_zeroed(64)` pads the 32 written bytes with 32
zeroes. -/
def InstallableWad.dumpBytes (w : InstallableWad) : List Nat :=
  u32be 32 ++ [0x49, 0x73] ++ u16be 0 ++ u32be w.certificate_chain_size
    ++ List.replicate 4 0 ++ u32be w.ticket_size ++ u32be w.title_metadata_size
    ++ u32be w.content_size ++ u32be w.footer_size ++ List.replicate 32 0

/-! ## niiebla: content modification builder (wad/installable/content.rs) -/

inductive CryptographicMethod where
  | wii
deriving DecidableEq

/-- `ModifyContentBuilder` option fields (`wad` and `wad_stream` references
left abstract; `Ticket` is the type of the borrowed ticket). -/
structure ModifyContentBuilder (Ticket : Type) where
  new_id : Option Nat
  new_index : Option Nat
  new_kind : Option TitleMetadataContentEntryKind
  ticket : Option Ticket
  cryptographic_method : Option CryptographicMethod
  trim_if_is_file : Bool

/-- `InstallableWad::modify_content` builds the builder with every setter
unset. -/
def ModifyContentBuilder.modify_content (Ticket : Type) :
    ModifyContentBuilder Ticket :=
  { new_id := none, new_index := none, new_kind := none, ticket := none,
    cryptographic_method := none, trim_if_is_file := false }

def ModifyContentBuilder.set_cryptography {Ticket : Type}
    (b : ModifyContentBuilder Ticket) (ticket : Ticket)
    (crytographic_method : CryptographicMethod) : ModifyContentBuilder Ticket :=
  { b with ticket := some ticket,
           cryptographic_method := some crytographic_method }

def ModifyContentBuilder.set_id {Ticket : Type}
    (b : ModifyContentBuilder Ticket) (id : Nat) : ModifyContentBuilder Ticket :=
  { b with new_id := some id }

def ModifyContentBuilder.set_index {Ticket : Type}
    (b : ModifyContentBuilder Ticket) (index : Nat) : ModifyContentBuilder Ticket :=
  { b with new_index := some index }

def ModifyContentBuilder.set_kind {Ticket : Type}
    (b : ModifyContentBuilder Ticket) (kind : TitleMetadataContentEntryKind) :
    ModifyContentBuilder Ticket :=
  { b with new_kind := some kind }

/-- Outcome of the settings-unwrapping prefix of
`ModifyContentBuilder::add`: either a panic from one of the five `expect`
calls, a typed error, or the five unwrapped settings with which `add`
proceeds to its stream work. -/
inductive AddSettingsOutcome (Ticket : Type) where
  | panicked (msg : String)
  | error (e : InstallableWadError)
  | settingsOk (id : Nat) (index : Nat) (kind : TitleMetadataContentEntryKind)
      (ticket : Ticket) (method : CryptographicMethod)

/-- The five `expect` calls at the start of `ModifyContentBuilder::add`, in
source order. -/
def ModifyContentBuilder.addSettings {Ticket : Type}
    (b : ModifyContentBuilder Ticket) : AddSettingsOutcome Ticket :=
  match b.new_id with
  | none => .panicked "Missing ID, use `.set_id()` on the builder"
  | some id =>
    match b.new_index with
    | none => .panicked "Missing index, use `.set_index()` on the builder"
    | some index =>
      match b.new_kind with
      | none => .panicked "Missing kind, use `.set_kind()` on the builder"
      | some kind =>
        match b.ticket with
        | none => .panicked "Missing ticket, use `.set_cryptography()` on the builder"
        | some ticket =>
          match b.cryptographic_method with
          | none => .panicked
              "Missing cryptographic method, use `.set_cryptography()` on the builder"
          | some method => .settingsOk id index kind ticket method

/-! ## util crate: AES-128-CBC stream adapter (aes.rs)

The `aes` crate's block cipher is an external primitive; the model is
parameterised by the block decryption `D` and encryption `E` maps on
16-byte blocks.  The CBC chaining, the window arithmetic and the buffer
handling come from the source. -/

/-- The start of the window `AesCbcStream::read` decrypts: 0 at position 0,
one whole block back for a block-aligned position, otherwise back to the
previous 16-byte boundary (`align_to_boundary(p, 16) - 16`). -/
def aesReadStart (original_position : Nat) : Nat :=
  if original_position = 0 then original_position
  else if original_position % 16 = 0 then original_position - 16
  else alignTo original_position 16 - 16

/-- The clipped byte count of `AesCbcStream::read`: the source computes
`stream_len` as `seek(End(0)) + 1`, that is the stream length plus one. -/
def aesReadCount (original_position buf_len stream_length : Nat) : Nat :=
  let stream_len := stream_length + 1
  if original_position + buf_len > stream_len then
    buf_len - (original_position + buf_len - stream_len)
  else buf_len

/-- The size of the aligned scratch buffers of `AesCbcStream::read`. -/
def aesReadWindowLen (original_position buf_len stream_length : Nat) : Nat :=
  alignTo ((original_position - aesReadStart original_position)
    + aesReadCount original_position buf_len stream_length) 16

def xorBytes (a b : List Nat) : List Nat :=
  List.zipWith Nat.xor a b

/-- CBC decryption without padding: each plaintext block is the decrypted
ciphertext block xored with the previous ciphertext block (the IV first). -/
def cbcDecryptBlocks (D : List Nat → List Nat) (prev : List Nat) :
    List (List Nat) → List (List Nat)
  | [] => []
  | c :: cs => xorBytes (D c) prev :: cbcDecryptBlocks D c cs

/-- CBC encryption without padding: each ciphertext block encrypts the
plaintext block xored with the previous ciphertext block (the IV first). -/
def cbcEncryptBlocks (E : List Nat → List Nat) (prev : List Nat) :
    List (List Nat) → List (List Nat)
  | [] => []
  | p :: ps =>
    let c := E (xorBytes p prev)
    c :: cbcEncryptBlocks E c ps

def toBlocksGo : Nat → List Nat → List (List Nat)
  | 0, _ => []
  | _ + 1, [] => []
  | fuel + 1, l => l.take 16 :: toBlocksGo fuel (l.drop 16)

/-- Split a byte list into consecutive 16-byte blocks. -/
def toBlocks (l : List Nat) : List (List Nat) :=
  toBlocksGo l.length l

structure AesCbcReadResult where
  buf : List Nat
  count : Nat
deriving DecidableEq

/-- `AesCbcStream::read` issued while the underlying ciphertext stream
`data` is at position `p`, with an `m`-byte caller buffer: seek back to the
window start, read the window (a short read leaves the zero-initialised
tail of the scratch buffer), CBC-decrypt it with a fresh clone of the
stored decryptor, copy the requested sub-range out and return the clipped
count. -/
def AesCbcStream.read (D : List Nat → List Nat) (iv : List Nat)
    (data : List Nat) (p m : Nat) : AesCbcReadResult :=
  let start_position := aesReadStart p
  let start_padding := p - start_position
  let buf_len := aesReadCount p m data.length
  let len := alignTo (start_padding + buf_len) 16
  let available := (data.drop start_position).take len
  let encrypted_buffer := available ++ List.replicate (len - available.length) 0
  let decrypted_buffer :=
    (cbcDecryptBlocks D iv (toBlocks encrypted_buffer)).flatten
  { buf := (decrypted_buffer.drop start_padding).take buf_len,
    count := buf_len }

/-- `AesCbcStream::write` at position `p`: encrypt the caller's buffer with
a fresh clone of the stored encryptor (`NoPadding` fails unless the length
is a multiple of 16) and write the ciphertext at the current position. -/
def AesCbcStream.write (E : List Nat → List Nat) (iv : List Nat)
    (data : List Nat) (p : Nat) (buf : List Nat) : Option (List Nat) :=
  if buf.length % 16 = 0 then
    some ((ByteStream.write ⟨data, p⟩
      ((cbcEncryptBlocks E iv (toBlocks buf)).flatten)).data)
  else none

/-- The spec's `floor_align(p, 16)`: the greatest multiple of 16 that is at
most `p` (written from the spec's words, for comparison with
`aesReadStart`). -/
def floorAlignSpec (p b : Nat) : Nat :=
  p - p % b

/-- The round trip of spec §8: read an `m`-byte region at position `p`
through the CBC stream, then write the obtained plaintext back through a
freshly constructed CBC stream (same key and IV) positioned at the same
offset. -/
def aesCbcRoundtrip (E D : List Nat → List Nat) (iv data : List Nat)
    (p m : Nat) : Option (List Nat) :=
  AesCbcStream.write E iv data p ((AesCbcStream.read D iv data p m).buf)

/-! ## icebrk: v0 parental-control master key (v0.rs)

The `crc` crate implements the Rocksoft parameter model; with
`refin = refout = true` and `init = 0xFFFFFFFF` this is the bit-by-bit
reflected CRC-32 below. -/

inductive Platform where
  | wii
  | dsi
  | the3ds
  | wiiU
  | switch
deriving DecidableEq

def reflectBits (w n : Nat) : Nat :=
  (List.range w).foldl
    (fun acc i => acc + (if n.testBit i then 2 ^ (w - 1 - i) else 0)) 0

def CRC_INIT_VALUE : Nat := 0xFFFFFFFF

def CRC_XOROUT : Nat := 0xAAAA

def CRC_POLYNOMIAL_WII_AND_DSI : Nat := 0x04C11DB7

def CRC_POLYNOMIAL_WIIU_AND_3DS : Nat := 0x04C65DB7

def CRC_ADDOUT_WII_AND_DSI : Nat := 0x14C1

def CRC_ADDOUT_WIIU_AND_3DS : Nat := 0x1657

def crcStep (poly r : Nat) : Nat :=
  if r.testBit 31 then ((r <<< 1) ^^^ poly) % 2 ^ 32 else (r <<< 1) % 2 ^ 32

def crcRounds : Nat → Nat → Nat → Nat
  | 0, _, r => r
  | k + 1, poly, r => crcRounds k poly (crcStep poly r)

/-- One input byte of the reflected CRC-32: reflect the byte, xor it into
the top of the register, apply eight polynomial-division steps. -/
def crcProcessByte (poly r b : Nat) : Nat :=
  crcRounds 8 poly (r ^^^ (reflectBits 8 (b % 256) <<< 24))

/-- `crc::Crc::checksum` for `{ width: 32, poly, init: CRC_INIT_VALUE,
refin: true, refout: true, xorout: CRC_XOROUT }`. -/
def crcChecksum (poly : Nat) (input : List Nat) : Nat :=
  reflectBits 32 (input.foldl (crcProcessByte poly) CRC_INIT_VALUE) ^^^ CRC_XOROUT

/-- `get_crc`: polynomial and addout per platform; `Switch` panics. -/
def get_crc : Platform → Option (Nat × Nat)
  | .wii | .dsi => some (CRC_POLYNOMIAL_WII_AND_DSI, CRC_ADDOUT_WII_AND_DSI)
  | .wiiU | .the3ds => some (CRC_POLYNOMIAL_WIIU_AND_3DS, CRC_ADDOUT_WIIU_AND_3DS)
  | .switch => none

def natDecimalDigitsGo : Nat → Nat → List Nat
  | 0, _ => []
  | fuel + 1, n =>
    if n < 10 then [n + 48] else natDecimalDigitsGo fuel (n / 10) ++ [n % 10 + 48]

/-- The decimal ASCII digits of `n`. -/
def natDecimalAscii (n : Nat) : List Nat :=
  natDecimalDigitsGo (n + 1) n

/-- `format!("{value:0>width}")` for a decimal number: left-pad with ASCII
zeroes. -/
def padLeftZeros (width : Nat) (ds : List Nat) : List Nat :=
  List.replicate (width - ds.length) 48 ++ ds

/-- The bytes of `format!("{month:0>2}{day:0>2}{:0>4}", inquiry_number % 10000)`. -/
def v0InputString (month day inquiry_number : Nat) : List Nat :=
  padLeftZeros 2 (natDecimalAscii month) ++ padLeftZeros 2 (natDecimalAscii day)
    ++ padLeftZeros 4 (natDecimalAscii (inquiry_number % 10000))

/-- `calculate_v0_master_key`; the input asserts and the `Switch` panic are
modelled as `none`.  The source adds `checksum + addout` as `u32` (v0.rs
line 76), so the sum wraps in a release build (panics in debug); the wrap
is the explicit `% 2 ^ 32`. -/
def calculate_v0_master_key (platform : Platform) (inquiry_number day month : Nat) :
    Option Nat :=
  if inquiry_number ≤ 99999999 ∧ 0 < day ∧ day ≤ 31 ∧ 0 < month ∧ month ≤ 12 then
    match get_crc platform with
    | none => none
    | some (poly, addout) =>
      some (((crcChecksum poly (v0InputString month day inquiry_number) + addout)
        % 2 ^ 32) % 100000)
  else none

/-! ## Concrete sample values used by witnesses and counterexamples -/

deriving instance DecidableEq for Except

/-- A signed blob header with an ECDSA + SHA-1 signature (size 128). -/
def sbhEcdsa : SignedBlobHeader :=
  { signature := .ecdsaSha1 (List.replicate 60 0) (by simp), issuer := [] }

/-- A V0 Wii U title metadata with no content entries. -/
def tmdV0Empty : TitleMetadata :=
  { signed_blob_header := sbhEcdsa
    certificate_authority_certificate_revocation_list_version := 0
    signer_certificate_revocation_list_version := 0
    system_runtime_title_id := none
    title_id := 0
    group_id := 0
    access_rights := 0
    title_version := 0
    boot_content_index := 0
    platform_data := .wiiU
    version_1_extension := none
    content_chunk_entries := [] }

def entrySample : TitleMetadataContentEntry :=
  { id := 7, index := 0, kind := .normal, size := 16,
    hash := .version0 (List.replicate 20 0) }

/-- A V0 title metadata with exactly one content entry (id 7, index 0). -/
def tmdOneEntry : TitleMetadata :=
  { tmdV0Empty with content_chunk_entries := [entrySample] }

/-- A Boot2 installable WAD with all sizes zero. -/
def wadBoot2 : InstallableWad :=
  { header_size := 32, kind := .boot2, certificate_chain_size := 0,
    ticket_size := 0, title_metadata_size := 0, content_size := 0,
    footer_size := 0 }

/-- 230 distinct bytes, a stream that already contains data. -/
def sampleStream230 : List Nat := List.range 230

def iv16 : List Nat := List.replicate 16 0

/-- Two-block sample ciphertext whose first block differs from `iv16`. -/
def cbcSampleData : List Nat :=
  (1 :: List.replicate 15 0) ++ (2 :: List.replicate 15 0)

/-! ## Theorems -/

theorem align_to_boundary_eq_alignTo (value boundary : Nat) (hb : boundary ≠ 0)
    (h : alignTo value boundary < 2 ^ 64) :
    align_to_boundary value boundary = some (alignTo value boundary) := by
  unfold align_to_boundary alignTo
  unfold alignTo at h
  by_cases hv : value = 0
  · simp [hv]
  · rw [if_neg hv] at h
    simp only [if_neg hv, if_neg hb]
    exact congrArg some (Nat.mod_eq_of_lt h)

theorem alignTo_dvd (value boundary : Nat) (hb : 0 < boundary) :
    boundary ∣ alignTo value boundary := by
  unfold alignTo
  by_cases hv : value = 0
  · simp [hv]
  · simp only [hv, if_false]
    rcases Nat.eq_zero_or_pos (value % boundary) with hm | hm
    · rw [hm, Nat.sub_zero, Nat.mod_self, Nat.add_zero]
      exact Nat.dvd_of_mod_eq_zero hm
    · have hltb : value % boundary < boundary := Nat.mod_lt value hb
      have hlt : boundary - value % boundary < boundary := by omega
      rw [Nat.mod_eq_of_lt hlt]
      refine ⟨value / boundary + 1, ?_⟩
      have hv2 := Nat.div_add_mod value boundary
      have hmul : boundary * (value / boundary + 1)
          = boundary * (value / boundary) + boundary := by ring
      omega

theorem alignTo_ge (value boundary : Nat) : value ≤ alignTo value boundary := by
  unfold alignTo
  by_cases hv : value = 0
  · simp [hv]
  · rw [if_neg hv]
    exact Nat.le_add_right _ _

theorem alignTo_least (value boundary m : Nat) (hb : 0 < boundary)
    (hdvd : boundary ∣ m) (hge : value ≤ m) : alignTo value boundary ≤ m := by
  unfold alignTo
  by_cases hv : value = 0
  · simp [hv]
  · simp only [hv, if_false]
    rcases Nat.eq_zero_or_pos (value % boundary) with hm | hm
    · rw [hm, Nat.sub_zero, Nat.mod_self, Nat.add_zero]; exact hge
    · have hltb : value % boundary < boundary := Nat.mod_lt value hb
      have hlt : boundary - value % boundary < boundary := by omega
      rw [Nat.mod_eq_of_lt hlt]
      obtain ⟨k, rfl⟩ := hdvd
      have hq := Nat.div_add_mod value boundary
      have hkq : value / boundary < k := by
        rcases Nat.lt_or_ge (value / boundary) k with h | h
        · exact h
        · exfalso
          have hmk : boundary * k ≤ boundary * (value / boundary) :=
            Nat.mul_le_mul_left boundary h
          omega
      have h2 : boundary * (value / boundary + 1) ≤ boundary * k :=
        Nat.mul_le_mul_left boundary hkq
      have hmul : boundary * (value / boundary + 1)
          = boundary * (value / boundary) + boundary := by ring
      omega

theorem alignTo_mod_self (value boundary : Nat) (h : value % boundary = 0) :
    alignTo value boundary = value := by
  unfold alignTo
  by_cases hv : value = 0 <;> simp [hv, h]

theorem u16be_length (n : Nat) : (u16be n).length = 2 := rfl

theorem u32be_length (n : Nat) : (u32be n).length = 4 := rfl

theorem u32le_length (n : Nat) : (u32le n).length = 4 := rfl

theorem u64be_length (n : Nat) : (u64be n).length = 8 := rfl

theorem ByteStream.write_nil (s : ByteStream) : s.write [] = s := rfl

theorem ByteStream.padToCursor_length (s : ByteStream) :
    s.padToCursor.length = s.pos := by
  simp only [ByteStream.padToCursor, List.length_append, List.length_take,
    List.length_replicate]
  omega

theorem ByteStream.write_eq (s : ByteStream) (bs : List Nat) (h : bs ≠ []) :
    s.write bs
      = ⟨s.padToCursor ++ (bs ++ s.data.drop (s.pos + bs.length)),
         s.pos + bs.length⟩ := by
  unfold ByteStream.write
  rw [if_neg (by simpa using h)]

theorem ByteStream.write_pos (s : ByteStream) (bs : List Nat) :
    (s.write bs).pos = if bs.isEmpty then s.pos else s.pos + bs.length := by
  unfold ByteStream.write
  by_cases h : bs.isEmpty <;> simp [h]

theorem ByteStream.padToCursor_of_pos_le (s : ByteStream) (h : s.pos ≤ s.data.length) :
    s.padToCursor = s.data.take s.pos := by
  simp [ByteStream.padToCursor, Nat.sub_eq_zero_of_le h]

/-- Two consecutive `write_all` calls are one `write_all` of the
concatenation. -/
theorem ByteStream.write_write (s : ByteStream) (a b : List Nat) :
    (s.write a).write b = s.write (a ++ b) := by
  rcases eq_or_ne a [] with rfl | ha
  · simp [ByteStream.write_nil]
  rcases eq_or_ne b [] with rfl | hb
  · simp [ByteStream.write_nil]
  have hab : a ++ b ≠ [] := by simp [ha]
  have hP : s.padToCursor.length = s.pos := s.padToCursor_length
  have hPa : (s.padToCursor ++ a).length = s.pos + a.length := by simp [hP]
  have hTpos : (s.write a).pos = s.pos + a.length := by
    rw [ByteStream.write_pos, if_neg (by simpa using ha)]
  have hTdata : (s.write a).data
      = (s.padToCursor ++ a) ++ s.data.drop (s.pos + a.length) := by
    rw [ByteStream.write_eq s a ha, List.append_assoc]
  have hTle : (s.write a).pos ≤ (s.write a).data.length := by
    rw [hTpos, hTdata]
    simp only [List.length_append, hP, List.length_drop]
    omega
  have hTpad : (s.write a).padToCursor = s.padToCursor ++ a := by
    rw [ByteStream.padToCursor_of_pos_le _ hTle, hTdata, hTpos,
      List.take_left' hPa]
  have hTdrop : (s.write a).data.drop ((s.write a).pos + b.length)
      = s.data.drop (s.pos + (a ++ b).length) := by
    rw [hTdata, hTpos]
    have h1 : s.pos + a.length + b.length
        = (s.padToCursor ++ a).length + b.length := by omega
    rw [h1, List.drop_append b.length, List.drop_drop]
    congr 1
    simp only [List.length_append]
    omega
  rw [ByteStream.write_eq _ b hb, ByteStream.write_eq s (a ++ b) hab]
  ext : 1
  · rw [hTpad, hTdrop]
    simp [List.append_assoc]
  · rw [hTpos]
    simp only [List.length_append]
    omega

theorem ByteStream.writeChunks_eq_write_flatten (s : ByteStream)
    (cs : List (List Nat)) : s.writeChunks cs = s.write cs.flatten := by
  induction cs generalizing s with
  | nil => simp [ByteStream.writeChunks, ByteStream.write_nil]
  | cons c cs ih =>
    show (s.write c).writeChunks cs = _
    rw [ih, ByteStream.write_write]
    rfl

theorem ByteStream.write_from_zero (B bs : List Nat) :
    (ByteStream.mk B 0).write bs = ⟨bs ++ B.drop bs.length, bs.length⟩ := by
  rcases eq_or_ne bs [] with rfl | h
  · simp [ByteStream.write_nil]
  · rw [ByteStream.write_eq _ bs h]
    ext : 1
    · show ByteStream.padToCursor _ ++ _ = _
      simp [ByteStream.padToCursor]
    · simp

theorem SignedBlobHeaderSignature.payload_length (sig : SignedBlobHeaderSignature) :
    sig.payload.length = sig.payloadSize := by
  cases sig <;> simp [payload, payloadSize] <;> assumption

theorem SignedBlobHeaderSignature.sig_dumpBytes_length (sig : SignedBlobHeaderSignature) :
    sig.dumpBytes.length = 4 + sig.payloadSize := by
  simp [dumpBytes, sig.payload_length, u32be]
  omega

theorem SignedBlobHeader.sbh_dumpBytes_length (h : SignedBlobHeader)
    (hIss : h.issuer.length ≤ 64) : h.dumpBytes.length = h.size := by
  unfold SignedBlobHeader.dumpBytes SignedBlobHeader.size
  simp only [List.length_append, List.length_replicate,
    h.signature.sig_dumpBytes_length]
  cases hsig : h.signature <;>
    simp only [SignedBlobHeaderSignature.payloadSize] <;>
    unfold alignTo <;> norm_num <;> omega

theorem TitleMetadataPlatformData.regionBytes_length
    (p : TitleMetadataPlatformData) (h : p.wf = true) :
    p.regionBytes.length = 62 := by
  cases p <;> simp_all [regionBytes, wf, u32le, u16be]

theorem TitleMetadata.dumpPre_length (m : TitleMetadata)
    (hIss : m.signed_blob_header.issuerOk = true)
    (hPlat : m.platform_data.wf = true) :
    m.dumpPre.length = 98 + m.signed_blob_header.size := by
  unfold dumpPre
  simp only [SignedBlobHeader.issuerOk, decide_eq_true_eq] at hIss
  simp only [List.length_append, m.signed_blob_header.sbh_dumpBytes_length hIss,
    m.platform_data.regionBytes_length hPlat, List.length_cons,
    List.length_nil, u16be_length, u32be_length, u64be_length]
  cases m.system_runtime_title_id <;> simp [u64be] <;> omega

theorem findIdxAux_eq_none {α : Type} (p : α → Bool) (l : List α)
    (h : ∀ x ∈ l, ¬ p x) : ∀ i, List.findIdx? p l i = none := by
  induction l with
  | nil => intro i; rfl
  | cons a l ih =>
    intro i
    rw [List.findIdx?_cons]
    rw [if_neg (by simpa using h a (List.mem_cons_self a l))]
    exact ih (fun x hx => h x (List.mem_cons_of_mem a hx)) (i + 1)

theorem ByteStream.seekRel_mk (d : List Nat) (p n : Nat) :
    (ByteStream.mk d p).seekRel n = ⟨d, p + n⟩ := rfl

theorem ByteStream.data_mk (d : List Nat) (p : Nat) :
    (ByteStream.mk d p).data = d := rfl

theorem ByteStream.pos_mk (d : List Nat) (p : Nat) :
    (ByteStream.mk d p).pos = p := rfl

/-- The central characterisation of `TitleMetadata::dump` over a stream that
already holds `B` (cursor at 0, `B` at least as long as the written image):
the fixed prefix is overwritten, the two title-minor-version bytes of `B`
survive untouched, the extension and entries follow, and the tail of `B`
beyond the image survives. -/
theorem TitleMetadata.dump_data_eq (m : TitleMetadata) (B : List Nat)
    (hIss : m.signed_blob_header.issuerOk = true)
    (hPlat : m.platform_data.wf = true)
    (hB : 100 + m.signed_blob_header.size ≤ B.length) :
    (m.dump ⟨B, 0⟩).data
      = m.dumpPre ++ ((B.drop (98 + m.signed_blob_header.size)).take 2
        ++ (m.dumpPostChunks.flatten
        ++ B.drop (100 + m.signed_blob_header.size
            + m.dumpPostChunks.flatten.length))) := by
  have hpre : m.dumpPre.length = 98 + m.signed_blob_header.size :=
    m.dumpPre_length hIss hPlat
  unfold TitleMetadata.dump
  rw [ByteStream.writeChunks_eq_write_flatten, ByteStream.write_from_zero,
    ByteStream.seekRel_mk]
  rcases eq_or_ne m.dumpPostChunks.flatten [] with hflat | hflat
  · rw [hflat, ByteStream.write_nil, ByteStream.data_mk]
    simp only [List.length_nil, Nat.add_zero, List.nil_append]
    rw [hpre]
    have hsplit : B.drop (98 + m.signed_blob_header.size)
        = (B.drop (98 + m.signed_blob_header.size)).take 2
          ++ (B.drop (98 + m.signed_blob_header.size)).drop 2 :=
      (List.take_append_drop 2 _).symm
    rw [List.drop_drop] at hsplit
    rw [show 98 + m.signed_blob_header.size + 2
        = 100 + m.signed_blob_header.size from by omega] at hsplit
    nth_rewrite 1 [hsplit]
    rfl
  · rw [ByteStream.write_eq _ _ hflat, ByteStream.data_mk]
    have hlen : (ByteStream.mk (m.dumpPre ++ B.drop m.dumpPre.length)
        (m.dumpPre.length + 2)).pos
        ≤ (ByteStream.mk (m.dumpPre ++ B.drop m.dumpPre.length)
        (m.dumpPre.length + 2)).data.length := by
      rw [ByteStream.data_mk, ByteStream.pos_mk]
      simp only [List.length_append, List.length_drop]
      omega
    rw [ByteStream.padToCursor_of_pos_le _ hlen, ByteStream.data_mk,
      ByteStream.pos_mk, List.take_append 2, hpre]
    rw [show 98 + m.signed_blob_header.size + 2 + m.dumpPostChunks.flatten.length
        = m.dumpPre.length + (2 + m.dumpPostChunks.flatten.length) from by omega]
    rw [List.drop_append, List.drop_drop]
    rw [show 98 + m.signed_blob_header.size + (2 + m.dumpPostChunks.flatten.length)
        = 100 + m.signed_blob_header.size + m.dumpPostChunks.flatten.length from by
      omega]
    rw [List.append_assoc]

/-- C9: `TitleMetadata::dump` over a stream already holding `B` writes the
whole serialized image except the 2 title-minor-version bytes at offset
`98 + signed-blob-header size`, which it seeks over: those two bytes of `B`
survive, everything before them is the fixed prefix, everything after them
is the V1 extension plus the content entries, and the tail of `B` beyond
the image is untouched. -/
theorem c9_dump_skips_minor_version (m : TitleMetadata) (B : List Nat)
    (hIss : m.signed_blob_header.issuerOk = true)
    (hPlat : m.platform_data.wf = true)
    (hB : 100 + m.signed_blob_header.size ≤ B.length) :
    (m.dump ⟨B, 0⟩).data
      = m.dumpPre ++ ((B.drop (98 + m.signed_blob_header.size)).take 2
        ++ (m.dumpPostChunks.flatten
        ++ B.drop (100 + m.signed_blob_header.size
            + m.dumpPostChunks.flatten.length))) :=
  TitleMetadata.dump_data_eq m B hIss hPlat hB

/-- C9 witness: dumping the one-entry sample over 230 pre-existing bytes. -/
theorem c9_witness :
    (tmdOneEntry.dump ⟨sampleStream230, 0⟩).data
      = tmdOneEntry.dumpPre
        ++ ((sampleStream230.drop (98 + tmdOneEntry.signed_blob_header.size)).take 2
        ++ (tmdOneEntry.dumpPostChunks.flatten
        ++ sampleStream230.drop (100 + tmdOneEntry.signed_blob_header.size
            + tmdOneEntry.dumpPostChunks.flatten.length))) :=
  c9_dump_skips_minor_version tmdOneEntry sampleStream230 (by decide) (by decide)
    (by decide)

/-- C1: the limit-entry round trip is broken for `LaunchLimit`.
`PreSwitchTicketLimitEntry::new` maps kind tag 2 to `LaunchLimit` (and 0/3
to `NoLimit`, 1 to `TimeLimit`, as the spec says), but `dump` writes the
kind tag 4 for `LaunchLimit`, so parsing a serialized ticket containing a
`LaunchLimit` entry fails with `UnknownLimitEntryType(4)` instead of
returning the original ticket. `NoLimit` and `TimeLimit` entries do round
trip. -/
theorem c1_launch_limit_roundtrip_bug :
    PreSwitchTicketLimitEntry.new 2 5
        = .ok (.launchLimit 5)
    ∧ (PreSwitchTicketLimitEntry.launchLimit 5).dumpBytes = u32be 4 ++ u32be 5
    ∧ (PreSwitchTicketLimitEntry.launchLimit 5).reparse
        = .error (.unknownLimitEntryType 4)
    ∧ (PreSwitchTicketLimitEntry.timeLimit 5).reparse = .ok (.timeLimit 5)
    ∧ (PreSwitchTicketLimitEntry.noLimit 0).reparse = .ok (.noLimit 0)
    ∧ (PreSwitchTicketLimitEntry.noLimit 3).reparse = .ok (.noLimit 3) := by
  refine ⟨rfl, rfl, rfl, rfl, rfl, rfl⟩

/-- C2: `InstallableWad::dump` writes the magic `"Is"` unconditionally, so
parsing the dump of a Boot2 WAD returns a Normal WAD: the parse succeeds
but the round trip loses the kind. -/
theorem c2_installable_wad_dump_parse_bug :
    InstallableWad.new wadBoot2.dumpBytes
        = .ok { wadBoot2 with kind := .normal }
    ∧ wadBoot2.kind = .boot2
    ∧ InstallableWad.new wadBoot2.dumpBytes ≠ .ok wadBoot2 := by
  refine ⟨by decide, rfl, by decide⟩

/-- C10 counterexample: at `value = 2^64 - 1`, `boundary = 2` the `u64`
addition wraps, so the function returns 0, which is not a multiple of 2
that is at least the input (in a debug build the same input panics on
overflow). -/
theorem c10_counterexample :
    align_to_boundary (2 ^ 64 - 1) 2 = some 0 ∧ ¬ (2 ^ 64 - 1 ≤ 0) := by
  refine ⟨by decide, by decide⟩

/-- C10 (amended): for every `boundary > 0` such that the aligned value
fits a `u64`, `align_to_boundary` returns the least multiple of the
boundary that is at least the value; with `boundary = 0` it returns 0 for
`value = 0` and panics with a division by zero for every other value. -/
theorem c10_align_least_multiple :
    (∀ value boundary : Nat, 0 < boundary →
      value + (boundary - value % boundary) % boundary < 2 ^ 64 →
      ∃ r, align_to_boundary value boundary = some r ∧ value ≤ r ∧ boundary ∣ r
        ∧ ∀ m', boundary ∣ m' → value ≤ m' → r ≤ m')
    ∧ align_to_boundary 0 0 = some 0
    ∧ (∀ value : Nat, value ≠ 0 → align_to_boundary value 0 = none) := by
  refine ⟨?_, rfl, ?_⟩
  · intro v b hb hov
    have hlt : alignTo v b < 2 ^ 64 := by
      unfold alignTo
      by_cases hv : v = 0
      · rw [if_pos hv]
        norm_num
      · rw [if_neg hv]
        exact hov
    exact ⟨alignTo v b, align_to_boundary_eq_alignTo v b (by omega) hlt,
      alignTo_ge v b, alignTo_dvd v b hb,
      fun m' hd hge => alignTo_least v b m' hb hd hge⟩
  · intro v hv
    unfold align_to_boundary
    rw [if_neg hv, if_pos rfl]

/-- C10 witness: the aligned value of 117 at boundary 64. -/
theorem c10_witness :
    ∃ r, align_to_boundary 117 64 = some r ∧ 117 ≤ r ∧ 64 ∣ r
      ∧ ∀ m', 64 ∣ m' → 117 ≤ m' → r ≤ m' :=
  c10_align_least_multiple.1 117 64 (by decide) (by decide)

theorem find_eq_none_of_forall {α : Type} (p : α → Bool) (l : List α)
    (h : ∀ x ∈ l, ¬ p x) : l.find? p = none :=
  List.find?_eq_none.mpr h

/-- C6 (amended): when an id selector or an index selector matches no
content entry, the `content_entry` and `physical_position` accessors and
the accessor of the other attribute fail with `ContentNotFound`; the
accessor of the selector's own attribute instead returns the stored value
without any lookup.  (Out-of-range physical positions panic in
`content_entry` — an unchecked index — and are returned unchecked by
`physical_position`; `Last` on an empty list wraps `len() - 1`.) -/
theorem c6_selector_not_found (tmd : TitleMetadata) :
    (∀ i : Nat, (∀ e ∈ tmd.content_chunk_entries, e.id ≠ i) →
      (ContentSelector.mk (.withId i)).content_entry tmd = .contentNotFound
      ∧ (ContentSelector.mk (.withId i)).physical_position tmd = .contentNotFound
      ∧ (ContentSelector.mk (.withId i)).index tmd = .contentNotFound
      ∧ (ContentSelector.mk (.withId i)).id tmd = .ok i)
    ∧ (∀ ix : Nat, (∀ e ∈ tmd.content_chunk_entries, e.index ≠ ix) →
      (ContentSelector.mk (.withIndex ix)).content_entry tmd = .contentNotFound
      ∧ (ContentSelector.mk (.withIndex ix)).physical_position tmd = .contentNotFound
      ∧ (ContentSelector.mk (.withIndex ix)).id tmd = .contentNotFound
      ∧ (ContentSelector.mk (.withIndex ix)).index tmd = .ok ix) := by
  constructor
  · intro i h
    have hf : tmd.content_chunk_entries.find? (fun e => e.id = i) = none :=
      find_eq_none_of_forall _ _ (by intro x hx; simpa using h x hx)
    have hfi : ∀ s, List.findIdx? (fun e => e.id = i)
        tmd.content_chunk_entries s = none :=
      findIdxAux_eq_none _ _ (by intro x hx; simpa using h x hx)
    have hce : (ContentSelector.mk (.withId i)).content_entry tmd
        = .contentNotFound := by
      unfold ContentSelector.content_entry ContentSelector.content_entry_body
      simp [hf]
    refine ⟨hce, ?_, ?_, rfl⟩
    · unfold ContentSelector.physical_position
        ContentSelector.physical_position_body
      simp [hfi 0]
    · unfold ContentSelector.index
      simp only [hce]
      rfl
  · intro ix h
    have hf : tmd.content_chunk_entries.find? (fun e => e.index = ix) = none :=
      find_eq_none_of_forall _ _ (by intro x hx; simpa using h x hx)
    have hfi : ∀ s, List.findIdx? (fun e => e.index = ix)
        tmd.content_chunk_entries s = none :=
      findIdxAux_eq_none _ _ (by intro x hx; simpa using h x hx)
    have hce : (ContentSelector.mk (.withIndex ix)).content_entry tmd
        = .contentNotFound := by
      unfold ContentSelector.content_entry ContentSelector.content_entry_body
      simp [hf]
    refine ⟨hce, ?_, ?_, rfl⟩
    · unfold ContentSelector.physical_position
        ContentSelector.physical_position_body
      simp [hfi 0]
    · unfold ContentSelector.id
      simp only [hce]
      rfl

/-- C6 witness: an id selector for the absent id 99 on the one-entry sample
(entry id 7): three accessors answer `ContentNotFound`, while the `id`
accessor answers `ok 99`. -/
theorem c6_witness :
    (ContentSelector.mk (.withId 99)).content_entry tmdOneEntry
        = .contentNotFound
    ∧ (ContentSelector.mk (.withId 99)).physical_position tmdOneEntry
        = .contentNotFound
    ∧ (ContentSelector.mk (.withId 99)).index tmdOneEntry = .contentNotFound
    ∧ (ContentSelector.mk (.withId 99)).id tmdOneEntry = .ok 99 :=
  (c6_selector_not_found tmdOneEntry).1 99 (by decide)

/-- C6 counterexample: id 99 occurs in no entry of the one-entry sample
(its only id is 7), yet the `id` accessor returns `ok 99` instead of
failing with `ContentNotFound`. -/
theorem c6_counterexample :
    tmdOneEntry.content_chunk_entries.map TitleMetadataContentEntry.id = [7]
    ∧ (ContentSelector.mk (.withId 99)).id tmdOneEntry = .ok 99
    ∧ (ContentSelector.mk (.withId 99)).id tmdOneEntry
        ≠ ContentAccessOutcome.contentNotFound := by
  refine ⟨by decide, by decide, by decide⟩

/-- C8: `ModifyContentBuilder::add` panics through `expect`, naming the
missing setter, whenever `set_id`, `set_index`, `set_kind` or
`set_cryptography` has not been called (the checks run in source order),
and its settings phase never produces a typed error — in particular never
`ModifyContentMissingSetting`. -/
theorem c8_add_panics_on_missing_setting (Ticket : Type)
    (b : ModifyContentBuilder Ticket) :
    (b.new_id = none →
      b.addSettings = .panicked "Missing ID, use `.set_id()` on the builder")
    ∧ (b.new_id ≠ none → b.new_index = none →
      b.addSettings = .panicked "Missing index, use `.set_index()` on the builder")
    ∧ (b.new_id ≠ none → b.new_index ≠ none → b.new_kind = none →
      b.addSettings = .panicked "Missing kind, use `.set_kind()` on the builder")
    ∧ (b.new_id ≠ none → b.new_index ≠ none → b.new_kind ≠ none →
        b.ticket = none →
      b.addSettings
        = .panicked "Missing ticket, use `.set_cryptography()` on the builder")
    ∧ (b.new_id ≠ none → b.new_index ≠ none → b.new_kind ≠ none →
        b.ticket ≠ none → b.cryptographic_method = none →
      b.addSettings = .panicked
        "Missing cryptographic method, use `.set_cryptography()` on the builder")
    ∧ ∀ e : InstallableWadError, b.addSettings ≠ .error e := by
  obtain ⟨nid, nix, nk, nt, nm, ntr⟩ := b
  cases nid <;> cases nix <;> cases nk <;> cases nt <;> cases nm <;>
    simp [ModifyContentBuilder.addSettings]

/-- C8 witness: `add` on a fresh builder with no setter called panics with
the message naming `set_id`. -/
theorem c8_witness :
    (ModifyContentBuilder.modify_content Unit).addSettings
      = .panicked "Missing ID, use `.set_id()` on the builder" :=
  (c8_add_panics_on_missing_setting Unit
    (ModifyContentBuilder.modify_content Unit)).1 rfl

/-- C7 (amended): the v0 parental-control master key. The two concrete
scenario values of the spec hold, and the input string is the zero-padded
`"{MM:02}{DD:02}{inquiry mod 10000:04}"` (for the scenario inputs,
`"08053062"`).  For every in-range input on a non-Switch platform the
result is the wrapping `u32` sum of the reflected CRC-32 (init
`0xFFFFFFFF`, xorout `0xAAAA`, platform polynomial) of that string and the
platform addout, reduced modulo 100000 — which agrees with the claimed
`(crc + addout) mod 100000` exactly when the sum does not overflow `u32`
(see the counterexample for an in-range input where it does). -/
theorem c7_v0_master_key :
    calculate_v0_master_key .wii 84293062 5 8 = some 66150
    ∧ calculate_v0_master_key .wiiU 84293062 5 8 = some 87902
    ∧ v0InputString 8 5 84293062 = [48, 56, 48, 53, 51, 48, 54, 50]
    ∧ (∀ (platform : Platform) (inquiry day month : Nat),
        platform ≠ .switch →
        inquiry ≤ 99999999 → 0 < day → day ≤ 31 → 0 < month → month ≤ 12 →
        ∃ poly addout, get_crc platform = some (poly, addout)
          ∧ calculate_v0_master_key platform inquiry day month
            = some (((crcChecksum poly (v0InputString month day inquiry)
                + addout) % 2 ^ 32) % 100000)
          ∧ (crcChecksum poly (v0InputString month day inquiry) + addout < 2 ^ 32 →
              calculate_v0_master_key platform inquiry day month
                = some ((crcChecksum poly (v0InputString month day inquiry)
                    + addout) % 100000))) := by
  refine ⟨by decide, by decide, by decide, ?_⟩
  intro p inq d mo hp h1 h2 h3 h4 h5
  cases p
  case switch => exact absurd rfl hp
  all_goals
    refine ⟨_, _, rfl, ?_, ?_⟩
  case wii.refine_1 | dsi.refine_1 | the3ds.refine_1 | wiiU.refine_1 =>
    unfold calculate_v0_master_key
    rw [if_pos ⟨h1, h2, h3, h4, h5⟩]
    rfl
  all_goals
    intro hov
    unfold calculate_v0_master_key
    rw [if_pos ⟨h1, h2, h3, h4, h5⟩]
    show some _ = _
    rw [Nat.mod_eq_of_lt hov]

/-- C7 counterexample: at the in-range input (Wii, inquiry 4068, day 12,
month 1) the input string is `"01124068"`, its Wii CRC is `0xFFFFEBC4`,
and the `u32` sum `checksum + addout` overflows: the program (release
semantics) returns 133, while the claimed `(crc + addout) mod 100000`
yields 67429 (a debug build panics on the overflow instead). -/
theorem c7_counterexample :
    v0InputString 1 12 4068 = [48, 49, 49, 50, 52, 48, 54, 56]
    ∧ crcChecksum CRC_POLYNOMIAL_WII_AND_DSI (v0InputString 1 12 4068)
        = 0xFFFFEBC4
    ∧ calculate_v0_master_key .wii 4068 12 1 = some 133
    ∧ (crcChecksum CRC_POLYNOMIAL_WII_AND_DSI (v0InputString 1 12 4068)
        + CRC_ADDOUT_WII_AND_DSI) % 100000 = 67429
    ∧ calculate_v0_master_key .wii 4068 12 1
        ≠ some ((crcChecksum CRC_POLYNOMIAL_WII_AND_DSI (v0InputString 1 12 4068)
            + CRC_ADDOUT_WII_AND_DSI) % 100000) := by
  refine ⟨by decide, by decide, by decide, by decide, by decide⟩

/-- C7 witness: the general wrapping formula applied to the DSi at the
concrete scenario input. -/
theorem c7_witness :
    ∃ poly addout, get_crc Platform.dsi = some (poly, addout)
      ∧ calculate_v0_master_key .dsi 84293062 5 8
        = some (((crcChecksum poly (v0InputString 8 5 84293062) + addout)
          % 2 ^ 32) % 100000)
      ∧ (crcChecksum poly (v0InputString 8 5 84293062) + addout < 2 ^ 32 →
          calculate_v0_master_key .dsi 84293062 5 8
            = some ((crcChecksum poly (v0InputString 8 5 84293062) + addout)
              % 100000)) :=
  c7_v0_master_key.2.2.2 .dsi 84293062 5 8 (by decide) (by decide) (by decide)
    (by decide) (by decide) (by decide)

theorem xorBytes_cancel (a b : List Nat) (h : a.length = b.length) :
    xorBytes (xorBytes a b) b = a := by
  induction a generalizing b with
  | nil => simp [xorBytes]
  | cons x xs ih =>
    cases b with
    | nil => simp at h
    | cons y ys =>
      simp only [xorBytes, List.zipWith_cons_cons]
      have hhead : Nat.xor (Nat.xor x y) y = x := Nat.xor_cancel_right y x
      rw [hhead]
      have hxs : xs.length = ys.length := by simpa using h
      have hihys := ih ys hxs
      simp only [xorBytes] at hihys
      rw [hihys]

theorem xorBytes_length (a b : List Nat) :
    (xorBytes a b).length = min a.length b.length := by
  simp [xorBytes]

theorem toBlocksGo_fuel_irrel (f1 : Nat) :
    ∀ (f2 : Nat) (l : List Nat), l.length ≤ f1 → l.length ≤ f2 →
      toBlocksGo f1 l = toBlocksGo f2 l := by
  induction f1 with
  | zero =>
    intro f2 l h1 _
    have : l = [] := List.eq_nil_of_length_eq_zero (by omega)
    subst this
    cases f2 <;> rfl
  | succ f1 ih =>
    intro f2 l h1 h2
    cases l with
    | nil => cases f2 <;> rfl
    | cons x xs =>
      cases f2 with
      | zero => simp at h2
      | succ f2 =>
        simp only [List.length_cons] at h1 h2
        show (x :: xs).take 16 :: toBlocksGo f1 ((x :: xs).drop 16)
          = (x :: xs).take 16 :: toBlocksGo f2 ((x :: xs).drop 16)
        have hl : ((x :: xs).drop 16).length ≤ f1 := by
          simp only [List.length_drop, List.length_cons]
          omega
        have hl2 : ((x :: xs).drop 16).length ≤ f2 := by
          simp only [List.length_drop, List.length_cons]
          omega
        rw [ih f2 _ hl hl2]

theorem toBlocks_cons16 (x rest : List Nat) (hx : x.length = 16) :
    toBlocks (x ++ rest) = x :: toBlocks rest := by
  have hne : x ≠ [] := by
    intro h
    rw [h] at hx
    simp at hx
  obtain ⟨a, x', rfl⟩ := List.exists_cons_of_ne_nil hne
  unfold toBlocks
  have hx15 : x'.length = 15 := by
    simp only [List.length_cons] at hx
    omega
  have hlen : ((a :: x') ++ rest).length = rest.length + 16 := by
    simp only [List.length_append, List.length_cons]
    omega
  rw [hlen]
  show ((a :: x') ++ rest).take 16 :: toBlocksGo (rest.length + 15)
      (((a :: x') ++ rest).drop 16) = _
  rw [List.take_left' hx, List.drop_left' hx]
  rw [toBlocksGo_fuel_irrel (rest.length + 15) rest.length rest (by omega)
    (le_refl _)]

theorem toBlocks_flatten (Bs : List (List Nat))
    (h : ∀ b ∈ Bs, b.length = 16) : toBlocks Bs.flatten = Bs := by
  induction Bs with
  | nil => rfl
  | cons b bs ih =>
    rw [List.flatten_cons, toBlocks_cons16 b _ (h b (List.mem_cons_self _ _)),
      ih (fun x hx => h x (List.mem_cons_of_mem _ hx))]

theorem flatten_toBlocks (n : Nat) :
    ∀ l : List Nat, l.length = 16 * n →
      (∀ b ∈ toBlocks l, b.length = 16) ∧ (toBlocks l).flatten = l := by
  induction n with
  | zero =>
    intro l hl
    have : l = [] := List.eq_nil_of_length_eq_zero (by omega)
    subst this
    exact ⟨by intro b hb; simp [toBlocks, toBlocksGo] at hb, rfl⟩
  | succ n ih =>
    intro l hl
    have hsplit := (List.take_append_drop 16 l).symm
    have htake : (l.take 16).length = 16 := by
      rw [List.length_take]
      omega
    have hdrop : (l.drop 16).length = 16 * n := by
      rw [List.length_drop]
      omega
    obtain ⟨ih1, ih2⟩ := ih (l.drop 16) hdrop
    have hblocks : toBlocks l = l.take 16 :: toBlocks (l.drop 16) := by
      nth_rewrite 1 [hsplit]
      exact toBlocks_cons16 _ _ htake
    constructor
    · intro b hb
      rw [hblocks] at hb
      rcases List.mem_cons.mp hb with rfl | hb2
      · exact htake
      · exact ih1 b hb2
    · rw [hblocks, List.flatten_cons, ih2]
      exact List.take_append_drop 16 l

theorem cbcDecryptBlocks_length (D : List Nat → List Nat) (prev : List Nat)
    (Bs : List (List Nat)) :
    (cbcDecryptBlocks D prev Bs).length = Bs.length := by
  induction Bs generalizing prev with
  | nil => rfl
  | cons c cs ih => simp [cbcDecryptBlocks, ih]

theorem cbcDecryptBlocks_block_length (D : List Nat → List Nat)
    (hDlen : ∀ b, (D b).length = b.length) (prev : List Nat)
    (Bs : List (List Nat)) (hprev : prev.length = 16)
    (hBs : ∀ b ∈ Bs, b.length = 16) :
    ∀ b ∈ cbcDecryptBlocks D prev Bs, b.length = 16 := by
  induction Bs generalizing prev with
  | nil => intro b hb; simp [cbcDecryptBlocks] at hb
  | cons c cs ih =>
    intro b hb
    simp only [cbcDecryptBlocks] at hb
    rcases List.mem_cons.mp hb with rfl | hb2
    · rw [xorBytes_length, hDlen, hprev, hBs c (List.mem_cons_self _ _)]
      rfl
    · exact ih c (hBs c (List.mem_cons_self _ _))
        (fun x hx => hBs x (List.mem_cons_of_mem _ hx)) b hb2

theorem flatten_length_of_forall (Bs : List (List Nat))
    (h : ∀ b ∈ Bs, b.length = 16) : Bs.flatten.length = 16 * Bs.length := by
  induction Bs with
  | nil => rfl
  | cons b bs ih =>
    rw [List.flatten_cons, List.length_append, List.length_cons,
      h b (List.mem_cons_self _ _), ih (fun x hx => h x (List.mem_cons_of_mem _ hx))]
    ring

/-- CBC encryption inverts CBC decryption block-wise, for any block cipher
pair with `E (D c) = c`. -/
theorem cbcEncrypt_cbcDecrypt (E D : List Nat → List Nat)
    (hED : ∀ b, E (D b) = b) (hDlen : ∀ b, (D b).length = b.length)
    (Bs : List (List Nat)) (prev : List Nat) (hprev : prev.length = 16)
    (hBs : ∀ b ∈ Bs, b.length = 16) :
    cbcEncryptBlocks E prev (cbcDecryptBlocks D prev Bs) = Bs := by
  induction Bs generalizing prev with
  | nil => rfl
  | cons c cs ih =>
    simp only [cbcDecryptBlocks, cbcEncryptBlocks]
    have hcancel : xorBytes (xorBytes (D c) prev) prev = D c :=
      xorBytes_cancel (D c) prev
        (by rw [hDlen, hBs c (List.mem_cons_self _ _), hprev])
    rw [hcancel, hED c]
    rw [ih c (hBs c (List.mem_cons_self _ _))
      (fun x hx => hBs x (List.mem_cons_of_mem _ hx))]

theorem aesReadStart_zero : aesReadStart 0 = 0 := rfl

theorem aesReadCount_no_clip (p m L : Nat) (h : p + m ≤ L + 1) :
    aesReadCount p m L = m := by
  unfold aesReadCount
  rw [if_neg (by omega)]

/-- `AesCbcStream::read` of `16 * n` bytes at position 0 returns the first
`n` blocks, CBC-decrypted from the stored IV. -/
theorem AesCbcStream.read_at_zero (D : List Nat → List Nat) (iv data : List Nat)
    (n : Nat) (hn : 16 * n ≤ data.length) :
    AesCbcStream.read D iv data 0 (16 * n)
      = { buf := ((cbcDecryptBlocks D iv
            (toBlocks (data.take (16 * n)))).flatten).take (16 * n),
          count := 16 * n } := by
  unfold AesCbcStream.read
  have hcount : aesReadCount 0 (16 * n) data.length = 16 * n :=
    aesReadCount_no_clip 0 (16 * n) data.length (by omega)
  simp only [aesReadStart_zero, hcount, Nat.sub_zero, Nat.zero_sub,
    Nat.zero_add, List.drop_zero]
  have halign : alignTo (16 * n) 16 = 16 * n :=
    alignTo_mod_self (16 * n) 16 (by omega)
  rw [halign]
  have htake : (data.take (16 * n)).length = 16 * n := by
    rw [List.length_take]
    omega
  rw [htake, Nat.sub_self]
  simp

/-- C4 (amended): the read-then-rewrite round trip of the CBC stream
reproduces the ciphertext for a 16-byte-aligned region that starts at the
beginning of the stream, for any block cipher pair with `E (D c) = c` and a
length-preserving `D`.  (For a region starting at a nonzero offset the
fresh encryptor chains from the stored IV instead of the preceding
ciphertext block, so the round trip fails whenever that block differs from
the IV; see the counterexample.) -/
theorem c4_cbc_roundtrip_from_start (E D : List Nat → List Nat)
    (iv data : List Nat) (n : Nat)
    (hED : ∀ b, E (D b) = b)
    (hDlen : ∀ b, (D b).length = b.length)
    (hiv : iv.length = 16)
    (hn : 16 * n ≤ data.length) :
    aesCbcRoundtrip E D iv data 0 (16 * n) = some data := by
  unfold aesCbcRoundtrip
  rw [AesCbcStream.read_at_zero D iv data n hn]
  have htakelen : (data.take (16 * n)).length = 16 * n := by
    rw [List.length_take]
    omega
  obtain ⟨hblen, hbflat⟩ := flatten_toBlocks n (data.take (16 * n)) htakelen
  have hdecblen : ∀ b ∈ cbcDecryptBlocks D iv (toBlocks (data.take (16 * n))),
      b.length = 16 :=
    cbcDecryptBlocks_block_length D hDlen iv _ hiv hblen
  have hcountblocks : (toBlocks (data.take (16 * n))).length = n := by
    have h1 := flatten_length_of_forall _ hblen
    rw [hbflat, htakelen] at h1
    omega
  have hdeclen : (cbcDecryptBlocks D iv
      (toBlocks (data.take (16 * n)))).flatten.length = 16 * n := by
    rw [flatten_length_of_forall _ hdecblen, cbcDecryptBlocks_length,
      hcountblocks]
  have hbuf : ((cbcDecryptBlocks D iv
      (toBlocks (data.take (16 * n)))).flatten).take (16 * n)
      = (cbcDecryptBlocks D iv (toBlocks (data.take (16 * n)))).flatten :=
    List.take_of_length_le (by omega)
  show AesCbcStream.write E iv data 0 _ = some data
  rw [hbuf]
  unfold AesCbcStream.write
  rw [if_pos (by rw [hdeclen]; omega)]
  rw [toBlocks_flatten _ hdecblen]
  rw [cbcEncrypt_cbcDecrypt E D hED hDlen _ iv hiv hblen]
  rw [hbflat, ByteStream.write_from_zero, ByteStream.data_mk, htakelen,
    List.take_append_drop]

/-- C4 witness: two blocks read from the start of the sample ciphertext
and re-encrypted with the identity block cipher pair restore the stream. -/
theorem c4_witness :
    aesCbcRoundtrip (fun b => b) (fun b => b) iv16 cbcSampleData 0 (16 * 2)
      = some cbcSampleData :=
  c4_cbc_roundtrip_from_start (fun b => b) (fun b => b) iv16 cbcSampleData 2
    (fun _ => rfl) (fun _ => rfl) (by decide) (by decide)

/-- C4 counterexample: for the aligned region `[16, 32)` of the sample
ciphertext (whose block 0 differs from the IV), reading and writing back
with an identity block cipher pair — which satisfies `E (D c) = c` — does
not restore the stream: the fresh encryptor chains from the IV instead of
ciphertext block 0. -/
theorem c4_counterexample :
    aesCbcRoundtrip (fun b => b) (fun b => b) iv16 cbcSampleData 16 16
      ≠ some cbcSampleData := by
  decide

/-- C5 (amended): for a read request of `m` bytes at position `p ≤ L` over
a ciphertext of length `L`, the adapter decrypts the enclosing window
starting at `p` when `p = 0`, at `p - 16` when `p` is a nonzero multiple
of 16 (one whole extra block, not `floor_align(p, 16) = p`), and at
`floor_align(p, 16)` otherwise; the window length is the count rounded up
from the window start to the next multiple of 16; and the returned count
is `min m (L + 1 - p)` — the source computes the stream length as
`seek(End(0)) + 1`, one more than the actual length, so a read at `p = L`
still returns one byte. -/
theorem c5_read_window_characterisation (p m L : Nat) (hp : p ≤ L) :
    aesReadStart p
        = (if p = 0 then 0 else if p % 16 = 0 then p - 16 else floorAlignSpec p 16)
    ∧ aesReadCount p m L = min m (L + 1 - p)
    ∧ aesReadWindowLen p m L
        = alignTo ((p - aesReadStart p) + min m (L + 1 - p)) 16
    ∧ (∀ (D : List Nat → List Nat) (iv data : List Nat), data.length = L →
        (AesCbcStream.read D iv data p m).count = min m (L + 1 - p)) := by
  have hstart : aesReadStart p
      = (if p = 0 then 0 else if p % 16 = 0 then p - 16
          else floorAlignSpec p 16) := by
    unfold aesReadStart floorAlignSpec
    by_cases h0 : p = 0
    · simp [h0]
    · rw [if_neg h0, if_neg h0]
      by_cases h16 : p % 16 = 0
      · rw [if_pos h16, if_pos h16]
      · rw [if_neg h16, if_neg h16]
        unfold alignTo
        rw [if_neg h0]
        have hlt : p % 16 < 16 := Nat.mod_lt p (by omega)
        rw [Nat.mod_eq_of_lt (show 16 - p % 16 < 16 from by omega)]
        omega
  have hcount : aesReadCount p m L = min m (L + 1 - p) := by
    unfold aesReadCount
    by_cases h : p + m > L + 1
    · rw [if_pos h]
      omega
    · rw [if_neg h]
      omega
  refine ⟨hstart, hcount, ?_, ?_⟩
  · unfold aesReadWindowLen
    rw [hcount]
  · intro D iv data hdata
    show aesReadCount p m data.length = min m (L + 1 - p)
    rw [hdata, hcount]

/-- C5 witness: an unaligned 7-byte read at position 5 of a 20-byte stream:
the window starts at `floor_align(5, 16) = 0` and the count is
`min 7 (20 + 1 - 5) = 7`. -/
theorem c5_witness :
    aesReadStart 5
        = (if 5 = 0 then 0 else if 5 % 16 = 0 then 5 - 16
            else floorAlignSpec 5 16)
    ∧ aesReadCount 5 7 20 = min 7 (20 + 1 - 5) :=
  ⟨(c5_read_window_characterisation 5 7 20 (by decide)).1,
   (c5_read_window_characterisation 5 7 20 (by decide)).2.1⟩

/-- C5 counterexample: at the block-aligned position 16 the window starts
at 0, not at `floor_align(16, 16) = 16`; and a 1-byte read at position
`p = L = 16` returns count 1, not `min 1 (L - p) = 0`, because the source
computes the stream length as `seek(End(0)) + 1`. -/
theorem c5_counterexample :
    aesReadStart 16 = 0
    ∧ floorAlignSpec 16 16 = 16
    ∧ aesReadStart 16 ≠ floorAlignSpec 16 16
    ∧ aesReadCount 16 1 16 = 1
    ∧ min 1 (16 - 16) = 0
    ∧ (AesCbcStream.read (fun b => b) iv16 (1 :: List.replicate 15 0) 16 1).count
        = 1 := by
  refine ⟨rfl, rfl, by decide, rfl, rfl, by decide⟩

end Zelzip
